import Mathlib

/-
  Verification of the skopio-zed language-server session tracker
  (src/skopio-ls/src/main.rs).

  The Rust program keeps an in-memory map of in-flight sessions keyed by
  the URI string of the touched resource, plus an optional `current_key`
  marker.  Request handlers call `note_activity` / `flush_closed`; a
  background task runs `periodic_flush_tick`; `shutdown` drains the map.
  Finalized sessions are handed to `emit_cli_event`, which silently skips
  sessions shorter than `min_session_secs` and otherwise invokes the
  external skopio CLI.

  Shallow embedding: the session map is an association list
  `List (String × Session)` (the Rust `HashMap` guarantees unique keys,
  which appears here as a `Nodup` hypothesis where a proof needs it);
  wall-clock timestamps are `Int` (Rust `i64`), monotonic instants are
  `Nat` with `now - last_seen` for `Instant::duration_since` (which
  saturates at zero, as does `Nat` subtraction).  Each operation is a pure
  state-transition function; the fallible external CLI call is modelled by
  the `Option RecordCall` that `emit_cli_event` decides to make plus an
  outcome oracle for success/failure.
-/

namespace SkopioLs

/-- Configuration, mirroring Rust struct `CliConfig`.  `idle_timeout` and
`switch_grace` are monotonic durations; `min_session_secs` is an `i64`. -/
structure CliConfig where
  skopio_cli : String
  idle_timeout : Nat
  switch_grace : Nat
  min_session_secs : Int
  category : String
  app : String
  entity_type : String
  source : String
  deriving Repr, DecidableEq

/-- One in-flight session, mirroring Rust struct `Session`.  `uri` is the
URI rendered as a string (the Rust map key is `uri.to_string()`). -/
structure Session where
  uri : String
  entity : String
  project : String
  start_ts : Int
  last_ts : Int
  last_seen : Nat
  deriving Repr, DecidableEq

/-- The shared mutable state, mirroring Rust struct `State`. -/
structure State where
  workspace_root : Option String
  sessions : List (String × Session)
  current_key : Option String
  deriving Repr, DecidableEq

/-- Rust `State::project_string`: the workspace root, or `"unknown"`. -/
def State.project_string (st : State) : String :=
  st.workspace_root.getD "unknown"

/-- Rust `HashMap::get` on the association list: first entry with the key. -/
def lookupSession (l : List (String × Session)) (key : String) : Option Session :=
  match l with
  | [] => none
  | (k, s) :: rest => if k = key then some s else lookupSession rest key

/-- Rust `HashMap::remove` on the association list: drop every entry with
the key (for the unique-key lists produced by the map, this is the single
entry holding the key). -/
def removeSession (l : List (String × Session)) (key : String) : List (String × Session) :=
  l.filter (fun p => p.1 ≠ key)

/-- The in-place mutation done through `sessions.get_mut(&key)` in
`note_activity`: set `last_ts`/`last_seen` of the entry holding `key`. -/
def updateSession (l : List (String × Session)) (key : String) (ts : Int) (inst : Nat) :
    List (String × Session) :=
  match l with
  | [] => []
  | (k, s) :: rest =>
    if k = key then (k, { s with last_ts := ts, last_seen := inst }) :: rest
    else (k, s) :: updateSession rest key ts inst

/-- Rust `Backend::note_activity`.  The wall-clock reading `now_ts`
(`now_unix_secs()`), the monotonic reading `now_inst` (`Instant::now()`)
and the resolved display label `entity`
(`uri_to_path_string(&uri).unwrap_or(key)`) are parameters of the
embedding.  Upsert the session for `key`, then mark `key` current. -/
def noteActivity (st : State) (key entity : String) (now_ts : Int) (now_inst : Nat) : State :=
  let project := st.project_string
  match lookupSession st.sessions key with
  | some _ =>
    { st with
      sessions := updateSession st.sessions key now_ts now_inst
      current_key := some key }
  | none =>
    { st with
      sessions :=
        (key, { uri := key, entity := entity, project := project,
                start_ts := now_ts, last_ts := now_ts, last_seen := now_inst })
          :: st.sessions
      current_key := some key }

/-- Rust `Backend::flush_closed`, critical section only: remove the
session for `key`, clear `current_key` if it named `key`, and return the
removed session (to be handed to `emit_cli_event` after the lock). -/
def flushClosed (st : State) (key : String) : State × Option Session :=
  ({ st with
      sessions := removeSession st.sessions key
      current_key := if st.current_key = some key then none else st.current_key },
   lookupSession st.sessions key)

/-- The grace-rule predicate of the sweeper, from the `filter_map` in
`periodic_flush_tick`: the entry is not the (re-read) current session and
its `last_seen` is at least `switch_grace` in the past. -/
def graceExpired (grace now : Nat) (cur : Option String) (p : String × Session) : Bool :=
  decide (some p.1 ≠ cur) && decide (grace ≤ now - p.2.last_seen)

/-- Step 1 of a sweeper tick (`// Idle flush current session` in
`periodic_flush_tick`): if `current_key` is set and the `last_seen` of that session is at least `idle_timeout` in the past, remove it and clear
`current_key`; if `current_key` dangles, just clear it. -/
def sweepStep1 (cfg : CliConfig) (now : Nat) (st : State) : State × List Session :=
  match st.current_key with
  | some cur =>
    match lookupSession st.sessions cur with
    | some s =>
      if cfg.idle_timeout ≤ now - s.last_seen then
        ({ st with sessions := removeSession st.sessions cur, current_key := none }, [s])
      else (st, [])
    | none => ({ st with current_key := none }, [])
  | none => (st, [])

/-- Step 2 of a sweeper tick (`// Grace flush all non-current sessions`):
re-read `current_key` and remove every session satisfying `graceExpired`.
The Rust code first collects `keys_to_remove` by this predicate and then
removes each collected key; since the `HashMap` holds one entry per key,
that is exactly this partition of the map. -/
def sweepStep2 (grace now : Nat) (st1 : State) : State × List Session :=
  ({ st1 with
      sessions := st1.sessions.filter (fun p => !graceExpired grace now st1.current_key p) },
   (st1.sessions.filter (graceExpired grace now st1.current_key)).map Prod.snd)

/-- One tick of Rust `Backend::periodic_flush_tick`, critical section
only.  Returns the new state and `to_flush`, the sessions marked for
reporting (the idle-removed session first, then the grace-removed ones,
as pushed by the code). -/
def periodicFlushTickStep (cfg : CliConfig) (now : Nat) (st : State) : State × List Session :=
  let r1 := sweepStep1 cfg now st
  let r2 := sweepStep2 cfg.switch_grace now r1.1
  (r2.1, r1.2 ++ r2.2)

/-- Rust `LanguageServer::shutdown`, critical section only: drain every
session and clear `current_key`; the drained sessions are then each
handed to `emit_cli_event`. -/
def shutdownDrain (st : State) : State × List Session :=
  ({ st with sessions := [], current_key := none }, st.sessions.map Prod.snd)

/-- The argument vector `emit_cli_event` passes to the skopio CLI when it
does invoke it. -/
structure RecordCall where
  timestamp : Int
  category : String
  app : String
  entity : String
  entity_type : String
  duration : Int
  project : String
  source : String
  end_timestamp : Int
  deriving Repr, DecidableEq

/-- Rust `emit_cli_event`, up to the external process launch: compute
`duration = last_ts - start_ts`; if it is below `min_session_secs`,
return without calling the CLI (`Ok(())`, not an error), modelled as
`none`; otherwise the CLI is invoked with exactly these arguments,
modelled as `some call`. -/
def emit_cli_event (cfg : CliConfig) (sess : Session) : Option RecordCall :=
  let end_ts := sess.last_ts
  let duration := end_ts - sess.start_ts
  if duration < cfg.min_session_secs then none
  else
    some { timestamp := sess.start_ts, category := cfg.category, app := cfg.app,
           entity := sess.entity, entity_type := cfg.entity_type, duration := duration,
           project := sess.project, source := cfg.source, end_timestamp := end_ts }

/-- Outcome of the trip of one finalized session through `emit_cli_event`:
skipped by the minimum-duration filter, or the CLI ran and succeeded or
failed (non-zero exit / spawn error). -/
inductive ReportOutcome where
  | skipped
  | succeeded
  | failed
  deriving Repr, DecidableEq

/-- One reporting attempt: `emit_cli_event` decides whether the CLI runs;
the oracle `ok` abstracts whether the external process succeeds. -/
def attemptReport (cfg : CliConfig) (ok : RecordCall → Bool) (sess : Session) : ReportOutcome :=
  match emit_cli_event cfg sess with
  | none => .skipped
  | some c => if ok c then .succeeded else .failed

/-- The reporting loop after a sweeper tick (`for sess in to_flush`): the
critical section on the store is already over (the state component is fixed
before any attempt), and every marked session is attempted in order, each
outcome of each attempt ignored (`let _ = ...`). -/
def tickWithReporting (cfg : CliConfig) (now : Nat) (ok : RecordCall → Bool) (st : State) :
    State × List (Session × ReportOutcome) :=
  let r := periodicFlushTickStep cfg now st
  (r.1, r.2.map (fun s => (s, attemptReport cfg ok s)))

/-- The reporting loop after the shutdown drain (`for sess in sessions`). -/
def shutdownWithReporting (cfg : CliConfig) (ok : RecordCall → Bool) (st : State) :
    State × List (Session × ReportOutcome) :=
  let r := shutdownDrain st
  (r.1, r.2.map (fun s => (s, attemptReport cfg ok s)))

/-- Store invariant: a set `current_key` names a key present in the map. -/
def currentOk (st : State) : Prop :=
  ∀ k, st.current_key = some k → (lookupSession st.sessions k).isSome

/-- Structural invariant of the map: the `uri` string of each stored session is
its map key (the Rust map key is `uri.to_string()`). -/
def keysMatch (st : State) : Prop :=
  ∀ p ∈ st.sessions, p.2.uri = p.1

/-- The Rust `HashMap` keeps at most one entry per key. -/
def nodupKeys (st : State) : Prop :=
  (st.sessions.map Prod.fst).Nodup

/-- Data invariant: every stored session has `start_ts ≤ last_ts`. -/
def startLeLast (st : State) : Prop :=
  ∀ p ∈ st.sessions, p.2.start_ts ≤ p.2.last_ts

theorem mem_removeSession {l : List (String × Session)} {key : String} {p : String × Session}
    (h : p ∈ removeSession l key) : p ∈ l ∧ p.1 ≠ key := by
  have := List.mem_filter.mp h
  exact ⟨this.1, by simpa using this.2⟩

theorem lookupSession_removeSession_self (l : List (String × Session)) (key : String) :
    lookupSession (removeSession l key) key = none := by
  induction l with
  | nil => rfl
  | cons a rest ih =>
    obtain ⟨k, s⟩ := a
    by_cases hk : k = key
    · simpa [removeSession, hk] using ih
    · simpa [removeSession, lookupSession, hk] using ih

theorem lookupSession_removeSession_ne (l : List (String × Session)) {key k : String}
    (h : k ≠ key) : lookupSession (removeSession l key) k = lookupSession l k := by
  induction l with
  | nil => rfl
  | cons a rest ih =>
    obtain ⟨k₀, s⟩ := a
    by_cases hk : k₀ = key
    · subst hk
      simp [removeSession, lookupSession, Ne.symm h] at ih ⊢
      exact ih
    · by_cases hk₂ : k₀ = k
      · subst hk₂
        simp [removeSession, lookupSession, List.filter_cons, h]
      · simpa [removeSession, lookupSession, hk, hk₂] using ih

theorem lookupSession_updateSession_self {l : List (String × Session)} {key : String}
    {s : Session} (h : lookupSession l key = some s) (ts : Int) (inst : Nat) :
    lookupSession (updateSession l key ts inst) key
      = some { s with last_ts := ts, last_seen := inst } := by
  induction l with
  | nil => simp [lookupSession] at h
  | cons a rest ih =>
    obtain ⟨k₀, s₀⟩ := a
    by_cases hk : k₀ = key
    · subst hk
      simp [lookupSession] at h
      subst h
      simp [updateSession, lookupSession]
    · simp [lookupSession, hk] at h
      simpa [updateSession, lookupSession, hk] using ih h

theorem lookupSession_updateSession_ne (l : List (String × Session)) {key k : String}
    (h : k ≠ key) (ts : Int) (inst : Nat) :
    lookupSession (updateSession l key ts inst) k = lookupSession l k := by
  induction l with
  | nil => rfl
  | cons a rest ih =>
    obtain ⟨k₀, s₀⟩ := a
    by_cases hk : k₀ = key
    · subst hk
      simp [updateSession, lookupSession, Ne.symm h]
    · by_cases hk₂ : k₀ = k
      · subst hk₂
        simp [updateSession, lookupSession, h]
      · simpa [updateSession, lookupSession, hk, hk₂] using ih

theorem keys_updateSession (l : List (String × Session)) (key : String) (ts : Int) (inst : Nat) :
    (updateSession l key ts inst).map Prod.fst = l.map Prod.fst := by
  induction l with
  | nil => rfl
  | cons a rest ih =>
    obtain ⟨k₀, s₀⟩ := a
    by_cases hk : k₀ = key
    · simp [updateSession, hk]
    · simpa [updateSession, hk] using ih

theorem mem_updateSession {l : List (String × Session)} {key : String} {ts : Int} {inst : Nat}
    {p : String × Session} (h : p ∈ updateSession l key ts inst) :
    p ∈ l ∨ ∃ s, (key, s) ∈ l ∧ p = (key, { s with last_ts := ts, last_seen := inst }) := by
  induction l with
  | nil => simp [updateSession] at h
  | cons a rest ih =>
    obtain ⟨k₀, s₀⟩ := a
    by_cases hk : k₀ = key
    · subst hk
      simp [updateSession] at h
      rcases h with h | h
      · exact Or.inr ⟨s₀, by simp, h⟩
      · exact Or.inl (List.mem_cons_of_mem _ h)
    · simp [updateSession, hk] at h
      rcases h with h | h
      · exact Or.inl (by simp [h])
      · rcases ih h with h₂ | ⟨s, hs, hp⟩
        · exact Or.inl (List.mem_cons_of_mem _ h₂)
        · exact Or.inr ⟨s, List.mem_cons_of_mem _ hs, hp⟩

theorem lookupSession_isSome_of_mem {l : List (String × Session)} {p : String × Session}
    (h : p ∈ l) : (lookupSession l p.1).isSome := by
  induction l with
  | nil => simp at h
  | cons a rest ih =>
    obtain ⟨k₀, s₀⟩ := a
    rcases List.mem_cons.mp h with h | h
    · subst h
      simp [lookupSession]
    · by_cases hk : k₀ = p.1
      · simp [lookupSession, hk]
      · simpa [lookupSession, hk] using ih h

theorem lookupSession_mem {l : List (String × Session)} {key : String} {s : Session}
    (h : lookupSession l key = some s) : (key, s) ∈ l := by
  induction l with
  | nil => simp [lookupSession] at h
  | cons a rest ih =>
    obtain ⟨k₀, s₀⟩ := a
    by_cases hk : k₀ = key
    · subst hk
      simp [lookupSession] at h
      simp [h]
    · simp [lookupSession, hk] at h
      exact List.mem_cons_of_mem _ (ih h)

theorem lookupSession_eq_none_iff (l : List (String × Session)) (key : String) :
    lookupSession l key = none ↔ ∀ p ∈ l, p.1 ≠ key := by
  induction l with
  | nil => simp [lookupSession]
  | cons a rest ih =>
    obtain ⟨k₀, s₀⟩ := a
    by_cases hk : k₀ = key
    · subst hk
      simp [lookupSession]
    · simp [lookupSession, hk, ih]

theorem removeSession_of_lookup_none {l : List (String × Session)} {key : String}
    (h : lookupSession l key = none) : removeSession l key = l := by
  have hall := (lookupSession_eq_none_iff l key).mp h
  exact List.filter_eq_self.mpr (fun p hp => by simpa using hall p hp)

theorem lookupSession_filter_of_key (l : List (String × Session))
    (f : String × Session → Bool) (key : String) (hf : ∀ s, f (key, s) = true) :
    lookupSession (l.filter f) key = lookupSession l key := by
  induction l with
  | nil => rfl
  | cons a rest ih =>
    obtain ⟨k₀, s₀⟩ := a
    by_cases hk : k₀ = key
    · subst hk
      simp [List.filter_cons, hf s₀, lookupSession]
    · by_cases hfa : f (k₀, s₀)
      · simpa [List.filter_cons, hfa, lookupSession, hk] using ih
      · simpa [List.filter_cons, hfa, lookupSession, hk] using ih

theorem lookupSession_filter_none {l : List (String × Session)} {key : String}
    (f : String × Session → Bool) (h : lookupSession l key = none) :
    lookupSession (l.filter f) key = none := by
  rw [lookupSession_eq_none_iff] at h ⊢
  exact fun p hp => h p (List.mem_of_mem_filter hp)

theorem eq_of_mem_nodup_keys {l : List (String × Session)}
    (hn : (l.map Prod.fst).Nodup) {p q : String × Session}
    (hp : p ∈ l) (hq : q ∈ l) (h : p.1 = q.1) : p = q := by
  induction l with
  | nil => simp at hp
  | cons a rest ih =>
    rw [List.map_cons, List.nodup_cons] at hn
    rcases List.mem_cons.mp hp with hp₁ | hp₁ <;> rcases List.mem_cons.mp hq with hq₁ | hq₁
    · rw [hp₁, hq₁]
    · exfalso
      apply hn.1
      rw [← hp₁, h]
      exact List.mem_map_of_mem Prod.fst hq₁
    · exfalso
      apply hn.1
      rw [← hq₁, ← h]
      exact List.mem_map_of_mem Prod.fst hp₁
    · exact ih hn.2 hp₁ hq₁

theorem nodup_keys_filter {l : List (String × Session)} (f : String × Session → Bool)
    (hn : (l.map Prod.fst).Nodup) : ((l.filter f).map Prod.fst).Nodup :=
  List.Nodup.sublist (List.Sublist.map Prod.fst (List.filter_sublist l)) hn

/-- A run of activity signals on one resource: each signal carries the
wall-clock reading and monotonic reading taken at the top of
`note_activity`. -/
def runActivity (st : State) (key entity : String) (sigs : List (Int × Nat)) : State :=
  sigs.foldl (fun s p => noteActivity s key entity p.1 p.2) st

theorem runActivity_nil (st : State) (key entity : String) :
    runActivity st key entity [] = st := rfl

theorem runActivity_cons (st : State) (key entity : String) (p : Int × Nat)
    (rest : List (Int × Nat)) :
    runActivity st key entity (p :: rest)
      = runActivity (noteActivity st key entity p.1 p.2) key entity rest := rfl

theorem noteActivity_lookup_present {st : State} {key : String} {s : Session}
    (h : lookupSession st.sessions key = some s) (entity : String) (ts : Int) (inst : Nat) :
    lookupSession (noteActivity st key entity ts inst).sessions key
      = some { s with last_ts := ts, last_seen := inst } := by
  simp only [noteActivity, h]
  exact lookupSession_updateSession_self h ts inst

theorem noteActivity_lookup_absent {st : State} {key : String}
    (h : lookupSession st.sessions key = none) (entity : String) (ts : Int) (inst : Nat) :
    lookupSession (noteActivity st key entity ts inst).sessions key
      = some { uri := key, entity := entity, project := st.project_string,
               start_ts := ts, last_ts := ts, last_seen := inst } := by
  simp [noteActivity, h, lookupSession]

theorem runActivity_lookup (entity : String) (sigs : List (Int × Nat)) (st : State)
    {key : String} {s : Session} (h : lookupSession st.sessions key = some s) :
    lookupSession (runActivity st key entity sigs).sessions key
      = some { s with last_ts := (sigs.map Prod.fst).getLastD s.last_ts,
                      last_seen := (sigs.map Prod.snd).getLastD s.last_seen } := by
  induction sigs generalizing st s with
  | nil => simpa [runActivity] using h
  | cons p rest ih =>
    obtain ⟨ts, i⟩ := p
    have h2 := ih (noteActivity st key entity ts i)
      (noteActivity_lookup_present h entity ts i)
    rw [show runActivity st key entity ((ts, i) :: rest)
          = runActivity (noteActivity st key entity ts i) key entity rest from rfl, h2]
    simp only [List.map_cons, List.getLastD_cons]

theorem sweepStep2_state (grace now : Nat) (st1 : State) :
    (sweepStep2 grace now st1).1.current_key = st1.current_key ∧
    (sweepStep2 grace now st1).1.workspace_root = st1.workspace_root := ⟨rfl, rfl⟩

theorem sweepStep2_flushed (grace now : Nat) (st1 : State)
    (hn1 : (st1.sessions.map Prod.fst).Nodup)
    (hk1 : ∀ p ∈ st1.sessions, p.2.uri = p.1) :
    ∀ s ∈ (sweepStep2 grace now st1).2,
      some s.uri ≠ st1.current_key ∧ grace ≤ now - s.last_seen ∧
      lookupSession (sweepStep2 grace now st1).1.sessions s.uri = none ∧
      (s.uri, s) ∈ st1.sessions := by
  intro s hs
  simp only [sweepStep2, List.mem_map] at hs
  obtain ⟨p, hpmem, hps⟩ := hs
  have hpl : p ∈ st1.sessions := List.mem_of_mem_filter hpmem
  have hpg : graceExpired grace now st1.current_key p = true := List.of_mem_filter hpmem
  simp only [graceExpired, Bool.and_eq_true, decide_eq_true_eq] at hpg
  have huri : p.2.uri = p.1 := hk1 p hpl
  subst hps
  refine ⟨by rw [huri]; exact hpg.1, hpg.2, ?_, by rw [huri]; exact hpl⟩
  simp only [sweepStep2]
  rw [lookupSession_eq_none_iff]
  intro q hq hq1
  have hql : q ∈ st1.sessions := List.mem_of_mem_filter hq
  have hqkeep := List.of_mem_filter hq
  have hpq : p = q := eq_of_mem_nodup_keys hn1 hpl hql ((hq1.trans huri).symm)
  rw [← hpq] at hqkeep
  simp [graceExpired, hpg.1, hpg.2] at hqkeep

/-- Concrete fixture: the default configuration built by
`CliConfig::from_env` with no environment overrides. -/
def exCfg : CliConfig :=
  { skopio_cli := "skopio-cli", idle_timeout := 60, switch_grace := 60,
    min_session_secs := 2, category := "Coding", app := "Zed",
    entity_type := "File", source := "skopio-zed" }

/-- Concrete fixture: one in-flight session. -/
def exSession : Session :=
  { uri := "file:///a", entity := "/a", project := "proj",
    start_ts := 10, last_ts := 20, last_seen := 30 }

/-- Concrete fixture: a store holding `exSession`, which is current. -/
def exState : State :=
  { workspace_root := some "proj",
    sessions := [("file:///a", exSession)],
    current_key := some "file:///a" }

/-- Concrete fixture: the freshly initialized store of `main`. -/
def exStateEmpty : State :=
  { workspace_root := none, sessions := [], current_key := none }

/-- C2: `note_activity(resource_key, entity_label)` creates a session with
`start_ts = last_ts` = the wall-clock reading, `last_seen` = the monotonic
reading, the given entity label and the project resolved from the
workspace root when the key is absent; when the key is present it only
rewrites `last_ts` and `last_seen`, keeping `uri`, `entity`, `project` and
`start_ts`; other keys are untouched and in both cases the key becomes
current. -/
theorem C2_noteActivity_spec (st : State) (key entity : String) (ts : Int) (inst : Nat) :
    (lookupSession st.sessions key = none →
        lookupSession (noteActivity st key entity ts inst).sessions key
          = some { uri := key, entity := entity, project := st.project_string,
                   start_ts := ts, last_ts := ts, last_seen := inst }) ∧
    (∀ s, lookupSession st.sessions key = some s →
        lookupSession (noteActivity st key entity ts inst).sessions key
          = some { s with last_ts := ts, last_seen := inst }) ∧
    (∀ k, k ≠ key →
        lookupSession (noteActivity st key entity ts inst).sessions k
          = lookupSession st.sessions k) ∧
    (noteActivity st key entity ts inst).current_key = some key ∧
    (noteActivity st key entity ts inst).workspace_root = st.workspace_root := by
  refine ⟨?_, ?_, ?_, ?_, ?_⟩
  · intro h
    exact noteActivity_lookup_absent h entity ts inst
  · intro s h
    exact noteActivity_lookup_present h entity ts inst
  · intro k hk
    cases hcase : lookupSession st.sessions key with
    | none => simp [noteActivity, hcase, lookupSession, Ne.symm hk]
    | some s =>
      simp only [noteActivity, hcase]
      exact lookupSession_updateSession_ne _ hk ts inst
  · cases hcase : lookupSession st.sessions key <;> simp [noteActivity, hcase]
  · cases hcase : lookupSession st.sessions key <;> simp [noteActivity, hcase]

/-- Witness for C2 at concrete inputs: inserting into the empty store and
extending an existing session. -/
theorem C2_witness :
    lookupSession (noteActivity exStateEmpty "k" "e" 5 7).sessions "k"
      = some { uri := "k", entity := "e", project := "unknown",
               start_ts := 5, last_ts := 5, last_seen := 7 } ∧
    lookupSession (noteActivity exState "file:///a" "/a" 25 40).sessions "file:///a"
      = some { exSession with last_ts := 25, last_seen := 40 } ∧
    (noteActivity exStateEmpty "k" "e" 5 7).current_key = some "k" :=
  ⟨(C2_noteActivity_spec exStateEmpty "k" "e" 5 7).1 rfl,
   (C2_noteActivity_spec exState "file:///a" "/a" 25 40).2.1 exSession rfl,
   (C2_noteActivity_spec exStateEmpty "k" "e" 5 7).2.2.2.1⟩

/-- C3: a finalized session whose duration `last_ts - start_ts` is below
`min_session_secs` is never passed to the CLI, and the skip is silent
(`Ok(())`, not an error); every finalization path (explicit close, idle
sweep, grace sweep, shutdown drain) reports through `emit_cli_event` /
`attemptReport`, so the filter applies to all of them. -/
theorem C3_min_duration_filter (cfg : CliConfig) (sess : Session)
    (h : sess.last_ts - sess.start_ts < cfg.min_session_secs) :
    emit_cli_event cfg sess = none ∧
    ∀ ok, attemptReport cfg ok sess = ReportOutcome.skipped := by
  constructor
  · simp [emit_cli_event, h]
  · intro ok
    simp [attemptReport, emit_cli_event, h]

/-- Witness for C3: a one-second session under the default two-second
minimum is silently skipped. -/
theorem C3_witness :
    ({ exSession with last_ts := 11 } : Session).last_ts
        - ({ exSession with last_ts := 11 } : Session).start_ts < exCfg.min_session_secs ∧
    emit_cli_event exCfg { exSession with last_ts := 11 } = none :=
  ⟨by decide, (C3_min_duration_filter exCfg { exSession with last_ts := 11 } (by decide)).1⟩

/-- C5: `flush_closed` on an absent key (in a store satisfying the current
invariant) changes nothing and hands nothing to the reporter; on a present
key it removes exactly that session, clears `current_key` iff it named the
key, leaves every other session in place, and hands the removed session to
the reporter immediately, with no grace wait. -/
theorem C5_flushClosed_spec (st : State) (key : String) (hc : currentOk st) :
    (lookupSession st.sessions key = none → flushClosed st key = (st, none)) ∧
    (∀ s, lookupSession st.sessions key = some s →
        (flushClosed st key).2 = some s ∧
        lookupSession (flushClosed st key).1.sessions key = none ∧
        (∀ k, k ≠ key →
            lookupSession (flushClosed st key).1.sessions k = lookupSession st.sessions k) ∧
        (flushClosed st key).1.current_key
          = (if st.current_key = some key then none else st.current_key) ∧
        (flushClosed st key).1.workspace_root = st.workspace_root) := by
  constructor
  · intro h
    have h1 : removeSession st.sessions key = st.sessions := removeSession_of_lookup_none h
    have h2 : st.current_key ≠ some key := by
      intro hcur
      have := hc key hcur
      rw [h] at this
      simp at this
    simp [flushClosed, h, h1, h2]
  · intro s h
    refine ⟨by simp [flushClosed, h], ?_, ?_, ?_, rfl⟩
    · simpa [flushClosed] using lookupSession_removeSession_self st.sessions key
    · intro k hk
      simpa [flushClosed] using lookupSession_removeSession_ne st.sessions hk
    · rfl

/-- Witness for C5: closing the current session of the one-session store
removes it, hands it over, and clears `current_key`. -/
theorem C5_witness :
    (flushClosed exState "file:///a").2 = some exSession ∧
    lookupSession (flushClosed exState "file:///a").1.sessions "file:///a" = none ∧
    (flushClosed exState "file:///a").1.current_key
      = (if exState.current_key = some "file:///a" then none else exState.current_key) := by
  have hc : currentOk exState := by
    intro k hk
    simp only [exState] at hk
    cases hk
    decide
  have h := (C5_flushClosed_spec exState "file:///a" hc).2 exSession rfl
  exact ⟨h.1, h.2.1, h.2.2.2.1⟩

/-- C6: the shutdown drain empties the map, clears `current_key`, and
hands every drained session to the reporter exactly once — the attempt
list is in bijection with the drained sessions for every outcome of the
external CLI. -/
theorem C6_shutdown_spec (st : State) :
    (shutdownDrain st).1.sessions = [] ∧
    (shutdownDrain st).1.current_key = none ∧
    (shutdownDrain st).2 = st.sessions.map Prod.snd ∧
    ∀ cfg ok,
      (shutdownWithReporting cfg ok st).1 = (shutdownDrain st).1 ∧
      (shutdownWithReporting cfg ok st).2.map Prod.fst = st.sessions.map Prod.snd := by
  refine ⟨rfl, rfl, rfl, ?_⟩
  intro cfg ok
  refine ⟨rfl, ?_⟩
  simp [shutdownWithReporting, shutdownDrain, List.map_map, Function.comp_def]

/-- C9: the sweeper tick and the shutdown drain fix the new state of the store
before any reporting happens, then attempt every marked session exactly
once in order; the attempt list and the final store do not depend on the
CLI success oracle, so one failure neither blocks the remaining attempts
nor retries nor re-inserts the failed session. -/
theorem C9_reporting_independent (cfg : CliConfig) (now : Nat) (st : State) :
    ∀ ok : RecordCall → Bool,
      (tickWithReporting cfg now ok st).1 = (periodicFlushTickStep cfg now st).1 ∧
      (tickWithReporting cfg now ok st).2.map Prod.fst = (periodicFlushTickStep cfg now st).2 ∧
      (shutdownWithReporting cfg ok st).1 = (shutdownDrain st).1 ∧
      (shutdownWithReporting cfg ok st).2.map Prod.fst = (shutdownDrain st).2 := by
  intro ok
  refine ⟨rfl, ?_, rfl, ?_⟩ <;>
    simp [tickWithReporting, shutdownWithReporting, List.map_map, Function.comp_def]

theorem sweepStep1_current {cfg : CliConfig} {now : Nat} {st : State} {k : String}
    (hk : (sweepStep1 cfg now st).1.current_key = some k) :
    (sweepStep1 cfg now st).1 = st ∧ (lookupSession st.sessions k).isSome := by
  cases hcur : st.current_key with
  | none => simp [sweepStep1, hcur] at hk
  | some cur =>
    cases hlk : lookupSession st.sessions cur with
    | none => simp [sweepStep1, hcur, hlk] at hk
    | some s =>
      by_cases hidle : cfg.idle_timeout ≤ now - s.last_seen
      · simp [sweepStep1, hcur, hlk, hidle] at hk
      · simp only [sweepStep1, hcur, hlk, if_neg hidle] at hk
        injection hk with hkk
        subst hkk
        exact ⟨by simp [sweepStep1, hcur, hlk, hidle], by simp [hlk]⟩

/-- C4: the invariant that a set `current_key` names a key present in the
session map is preserved by `note_activity`, `flush_closed`, the sweeper
tick, and the shutdown drain; every path that removes the current session
clears `current_key` in the same critical section. -/
theorem C4_currentOk_preserved (st : State) (hc : currentOk st) :
    (∀ key entity ts inst, currentOk (noteActivity st key entity ts inst)) ∧
    (∀ key, currentOk (flushClosed st key).1) ∧
    (∀ cfg now, currentOk (periodicFlushTickStep cfg now st).1) ∧
    currentOk (shutdownDrain st).1 := by
  refine ⟨?_, ?_, ?_, ?_⟩
  · intro key entity ts inst k hk
    have hck : (noteActivity st key entity ts inst).current_key = some key := by
      cases hcase : lookupSession st.sessions key <;> simp [noteActivity, hcase]
    rw [hck] at hk
    injection hk with hkk
    subst hkk
    cases hcase : lookupSession st.sessions key with
    | some s => simp [noteActivity_lookup_present hcase entity ts inst]
    | none => simp [noteActivity_lookup_absent hcase entity ts inst]
  · intro key k hk
    by_cases hcur : st.current_key = some key
    · simp [flushClosed, hcur] at hk
    · have hcc : (flushClosed st key).1.current_key = st.current_key := by
        simp [flushClosed, hcur]
      rw [hcc] at hk
      have hne : k ≠ key := by
        intro he
        apply hcur
        rw [← he]
        exact hk
      have hlk : lookupSession (flushClosed st key).1.sessions k
          = lookupSession st.sessions k := by
        simpa [flushClosed] using lookupSession_removeSession_ne st.sessions hne
      rw [hlk]
      exact hc k hk
  · intro cfg now k hk
    have hk1 : (sweepStep1 cfg now st).1.current_key = some k := hk
    obtain ⟨hst, hsome⟩ := sweepStep1_current hk1
    have hkeep : ∀ s,
        (!graceExpired cfg.switch_grace now (sweepStep1 cfg now st).1.current_key (k, s))
          = true := by
      intro s
      simp [graceExpired, hk1]
    have heq : lookupSession (periodicFlushTickStep cfg now st).1.sessions k
        = lookupSession (sweepStep1 cfg now st).1.sessions k := by
      simpa [periodicFlushTickStep, sweepStep2] using
        lookupSession_filter_of_key (sweepStep1 cfg now st).1.sessions _ k hkeep
    rw [heq, hst]
    exact hsome
  · intro k hk
    simp [shutdownDrain] at hk

/-- Witness for C4: after a fresh `note_activity` on the empty store, the
new `current_key` names a present session. -/
theorem C4_witness :
    (lookupSession (noteActivity exStateEmpty "k" "e" 1 1).sessions "k").isSome := by
  have hc : currentOk exStateEmpty := by
    intro k hk
    simp [exStateEmpty] at hk
  exact (C4_currentOk_preserved exStateEmpty hc).1 "k" "e" 1 1 "k" rfl

/-- C7: for any nonempty run of activity signals on one key with no
intervening close or finalization, the `start_ts` of the stored session is the
wall-clock reading of the first signal and its `last_ts` the reading of
the last signal, however many signals came in between. -/
theorem C7_first_last (st : State) (key entity : String) (first : Int × Nat)
    (rest : List (Int × Nat)) (h : lookupSession st.sessions key = none) :
    lookupSession (runActivity st key entity (first :: rest)).sessions key
      = some { uri := key, entity := entity, project := st.project_string,
               start_ts := first.1,
               last_ts := (rest.map Prod.fst).getLastD first.1,
               last_seen := (rest.map Prod.snd).getLastD first.2 } := by
  obtain ⟨ts, i⟩ := first
  have h1 := noteActivity_lookup_absent h entity ts i
  have h2 := runActivity_lookup entity rest (noteActivity st key entity ts i) h1
  rw [show runActivity st key entity ((ts, i) :: rest)
        = runActivity (noteActivity st key entity ts i) key entity rest from rfl, h2]

/-- Witness for C7: three signals on a fresh key; `start_ts` is the first
reading and `last_ts` the third. -/
theorem C7_witness :
    lookupSession (runActivity exStateEmpty "k" "e" [(1, 1), (5, 2), (9, 3)]).sessions "k"
      = some { uri := "k", entity := "e", project := "unknown",
               start_ts := 1, last_ts := 9, last_seen := 3 } := by
  have h := C7_first_last exStateEmpty "k" "e" (1, 1) [(5, 2), (9, 3)] rfl
  simpa using h

/-- C10: a session created while `workspace_root` is unset gets the
literal project `"unknown"`; later activity never re-resolves it; and if
the session is reported, the CLI call carries that same `"unknown"`
project. -/
theorem C10_project_unknown (st : State) (key entity : String) (ts : Int) (inst : Nat)
    (sigs : List (Int × Nat)) (cfg : CliConfig)
    (hroot : st.workspace_root = none) (habs : lookupSession st.sessions key = none) :
    ∃ s, lookupSession
        (runActivity (noteActivity st key entity ts inst) key entity sigs).sessions key
          = some s ∧
      s.project = "unknown" ∧
      ∀ c, emit_cli_event cfg s = some c → c.project = "unknown" := by
  have h0 := noteActivity_lookup_absent habs entity ts inst
  have h1 := runActivity_lookup entity sigs (noteActivity st key entity ts inst) h0
  refine ⟨_, h1, ?_, ?_⟩
  · simp [State.project_string, hroot]
  · intro c hc
    simp only [emit_cli_event] at hc
    split at hc
    · exact absurd hc (by simp)
    · have hcp := congrArg (fun o => (Option.map RecordCall.project o).getD "") hc
      simp at hcp
      rw [← hcp]
      simp [State.project_string, hroot]

/-- Witness for C10: creating and extending a session in the freshly
initialized store yields project `"unknown"`. -/
theorem C10_witness :
    (lookupSession
        (runActivity (noteActivity exStateEmpty "k" "e" 1 1) "k" "e" [(5, 2)]).sessions
        "k").map Session.project = some "unknown" := by
  obtain ⟨s, hs, hp, _⟩ := C10_project_unknown exStateEmpty "k" "e" 1 1 [(5, 2)] exCfg rfl rfl
  simp [hs, hp]

theorem sweepStep1_sub (cfg : CliConfig) (now : Nat) (st : State) :
    ∀ p ∈ (sweepStep1 cfg now st).1.sessions, p ∈ st.sessions := by
  intro p hp
  cases hcur : st.current_key with
  | none => simpa [sweepStep1, hcur] using hp
  | some cur =>
    cases hlk : lookupSession st.sessions cur with
    | none => simpa [sweepStep1, hcur, hlk] using hp
    | some s =>
      by_cases hidle : cfg.idle_timeout ≤ now - s.last_seen
      · simp only [sweepStep1, hcur, hlk, if_pos hidle] at hp
        exact (mem_removeSession hp).1
      · simpa [sweepStep1, hcur, hlk, hidle] using hp

theorem sweepStep1_nodup {cfg : CliConfig} {now : Nat} {st : State} (hn : nodupKeys st) :
    ((sweepStep1 cfg now st).1.sessions.map Prod.fst).Nodup := by
  cases hcur : st.current_key with
  | none => simpa [sweepStep1, hcur] using hn
  | some cur =>
    cases hlk : lookupSession st.sessions cur with
    | none => simpa [sweepStep1, hcur, hlk] using hn
    | some s =>
      by_cases hidle : cfg.idle_timeout ≤ now - s.last_seen
      · simp only [sweepStep1, hcur, hlk, if_pos hidle]
        exact nodup_keys_filter _ hn
      · simpa [sweepStep1, hcur, hlk, hidle] using hn

theorem sweepStep1_flushed {cfg : CliConfig} {now : Nat} {st : State} {s : Session}
    (hs : s ∈ (sweepStep1 cfg now st).2) :
    ∃ cur, st.current_key = some cur ∧ lookupSession st.sessions cur = some s ∧
      cfg.idle_timeout ≤ now - s.last_seen ∧
      (sweepStep1 cfg now st).1.current_key = none ∧
      (sweepStep1 cfg now st).1.sessions = removeSession st.sessions cur := by
  cases hcur : st.current_key with
  | none => simp [sweepStep1, hcur] at hs
  | some cur =>
    cases hlk : lookupSession st.sessions cur with
    | none => simp [sweepStep1, hcur, hlk] at hs
    | some s₀ =>
      by_cases hidle : cfg.idle_timeout ≤ now - s₀.last_seen
      · simp only [sweepStep1, hcur, hlk, if_pos hidle, List.mem_singleton] at hs
        subst hs
        refine ⟨cur, rfl, hlk, hidle, ?_, ?_⟩ <;>
          simp [sweepStep1, hcur, hlk, hidle]
      · simp [sweepStep1, hcur, hlk, hidle] at hs

/-- The property C1 asserts of one sweeper tick: `to_flush` splits into
the idle-removed part followed by the grace-removed part; the idle rule
fires only on the session named by the pre-tick `current_key`, removing
it from the store and clearing `current_key`; the grace rule fires only
on sessions whose key differs from the re-read (post-step-1)
`current_key`; and no session is finalized by both rules in one tick. -/
def SweepRulesOk (cfg : CliConfig) (now : Nat) (st : State) : Prop :=
  ∃ idleF graceF,
    (periodicFlushTickStep cfg now st).2 = idleF ++ graceF ∧
    (∀ s ∈ idleF, st.current_key = some s.uri ∧ cfg.idle_timeout ≤ now - s.last_seen ∧
        (periodicFlushTickStep cfg now st).1.current_key = none ∧
        lookupSession (periodicFlushTickStep cfg now st).1.sessions s.uri = none) ∧
    (∀ s ∈ graceF, some s.uri ≠ (periodicFlushTickStep cfg now st).1.current_key ∧
        cfg.switch_grace ≤ now - s.last_seen ∧
        lookupSession (periodicFlushTickStep cfg now st).1.sessions s.uri = none) ∧
    ∀ s ∈ idleF, ∀ t ∈ graceF, s.uri ≠ t.uri

/-- C1: in each sweeper tick the idle rule is applied only to the session
named by `current_key`, the grace rule only to sessions whose key is not
the re-read `current_key`, and no session is finalized by both rules. -/
theorem C1_sweep_rules (cfg : CliConfig) (now : Nat) (st : State)
    (hn : nodupKeys st) (hk : keysMatch st) : SweepRulesOk cfg now st := by
  have hn1 : ((sweepStep1 cfg now st).1.sessions.map Prod.fst).Nodup := sweepStep1_nodup hn
  have hk1 : ∀ p ∈ (sweepStep1 cfg now st).1.sessions, p.2.uri = p.1 :=
    fun p hp => hk p (sweepStep1_sub cfg now st p hp)
  have hgrace := sweepStep2_flushed cfg.switch_grace now (sweepStep1 cfg now st).1 hn1 hk1
  refine ⟨(sweepStep1 cfg now st).2,
          (sweepStep2 cfg.switch_grace now (sweepStep1 cfg now st).1).2, rfl, ?_, ?_, ?_⟩
  · intro s hs
    obtain ⟨cur, hcur, hlk, hidle, hc1, hrem⟩ := sweepStep1_flushed hs
    have huri : s.uri = cur := hk (cur, s) (lookupSession_mem hlk)
    have h0 : lookupSession (sweepStep1 cfg now st).1.sessions s.uri = none := by
      rw [hrem, huri]
      exact lookupSession_removeSession_self st.sessions cur
    refine ⟨by rw [huri]; exact hcur, hidle, hc1, ?_⟩
    exact lookupSession_filter_none _ h0
  · intro s hs
    obtain ⟨h1, h2, h3, _⟩ := hgrace s hs
    exact ⟨h1, h2, h3⟩
  · intro s hs t ht
    obtain ⟨cur, hcur, hlk, _, _, hrem⟩ := sweepStep1_flushed hs
    obtain ⟨_, _, _, hmem⟩ := hgrace t ht
    have hsuri : s.uri = cur := hk (cur, s) (lookupSession_mem hlk)
    rw [hrem] at hmem
    have hne := (mem_removeSession hmem).2
    rw [hsuri]
    exact Ne.symm hne

/-- Witness for C1: sweeping the one-session store at monotonic time 100
(the current session idle for 70 ≥ 60 units) satisfies the rule split. -/
theorem C1_witness :
    nodupKeys exState ∧ keysMatch exState ∧ SweepRulesOk exCfg 100 exState := by
  have h1 : nodupKeys exState := by simp [nodupKeys, exState]
  have h2 : keysMatch exState := by
    intro p hp
    simp only [exState, List.mem_singleton] at hp
    subst hp
    rfl
  exact ⟨h1, h2, C1_sweep_rules exCfg 100 exState h1 h2⟩

/-- C8 as literally stated fails on the code: `note_activity` takes a
fresh `now_unix_secs()` reading on every call and writes it into
`last_ts` unconditionally, and nothing prevents the wall clock (unlike
the monotonic clock) from stepping backwards between calls, so a session
extended at a wall-clock reading earlier than its `start_ts` ends with
`last_ts < start_ts`.  Here: store with a session started at 10, extended
at wall-clock reading 5. -/
theorem C8_counterexample :
    startLeLast exState ∧
      ¬ startLeLast (noteActivity exState "file:///a" "/a" 5 31) := by
  constructor
  · intro p hp
    simp only [exState, List.mem_singleton] at hp
    subst hp
    decide
  · intro h
    have hl : lookupSession (noteActivity exState "file:///a" "/a" 5 31).sessions "file:///a"
        = some { exSession with last_ts := 5, last_seen := 31 } :=
      @noteActivity_lookup_present exState "file:///a" exSession rfl "/a" 5 31
    have h2 := h _ (lookupSession_mem hl)
    simp only [exSession] at h2
    omega

/-- C8 amended: provided the wall-clock reading of each `note_activity` call
is at least the `last_ts` of every stored session (the wall clock does not
step backwards across calls), `start_ts ≤ last_ts` is preserved by every
operation; and every operation preserves that the `uri` of each stored
session equals its map key, so the identity of a session never changes
while it is in the store. -/
theorem C8_amended (st : State) (hs : startLeLast st) (hk : keysMatch st) :
    (∀ key entity ts inst, (∀ p ∈ st.sessions, p.2.last_ts ≤ ts) →
        startLeLast (noteActivity st key entity ts inst) ∧
        keysMatch (noteActivity st key entity ts inst)) ∧
    (∀ key, startLeLast (flushClosed st key).1 ∧ keysMatch (flushClosed st key).1) ∧
    (∀ cfg now, startLeLast (periodicFlushTickStep cfg now st).1 ∧
        keysMatch (periodicFlushTickStep cfg now st).1) ∧
    (startLeLast (shutdownDrain st).1 ∧ keysMatch (shutdownDrain st).1) := by
  refine ⟨?_, ?_, ?_, ?_⟩
  · intro key entity ts inst hclock
    cases hcase : lookupSession st.sessions key with
    | none =>
      constructor
      · intro p hp
        simp only [noteActivity, hcase, List.mem_cons] at hp
        rcases hp with hp | hp
        · subst hp
          exact le_refl ts
        · exact hs p hp
      · intro p hp
        simp only [noteActivity, hcase, List.mem_cons] at hp
        rcases hp with hp | hp
        · subst hp
          rfl
        · exact hk p hp
    | some s =>
      constructor
      · intro p hp
        simp only [noteActivity, hcase] at hp
        rcases mem_updateSession hp with hp | ⟨s₂, hs₂, hps⟩
        · exact hs p hp
        · subst hps
          exact le_trans (hs (key, s₂) hs₂) (hclock (key, s₂) hs₂)
      · intro p hp
        simp only [noteActivity, hcase] at hp
        rcases mem_updateSession hp with hp | ⟨s₂, hs₂, hps⟩
        · exact hk p hp
        · subst hps
          exact hk (key, s₂) hs₂
  · intro key
    constructor
    · intro p hp
      simp only [flushClosed] at hp
      exact hs p (mem_removeSession hp).1
    · intro p hp
      simp only [flushClosed] at hp
      exact hk p (mem_removeSession hp).1
  · intro cfg now
    have hsub : ∀ p ∈ (periodicFlushTickStep cfg now st).1.sessions, p ∈ st.sessions := by
      intro p hp
      have hp1 : p ∈ (sweepStep1 cfg now st).1.sessions :=
        List.mem_of_mem_filter (show p ∈ List.filter
          (fun q => !graceExpired cfg.switch_grace now (sweepStep1 cfg now st).1.current_key q)
          (sweepStep1 cfg now st).1.sessions from hp)
      exact sweepStep1_sub cfg now st p hp1
    exact ⟨fun p hp => hs p (hsub p hp), fun p hp => hk p (hsub p hp)⟩
  · constructor
    · intro p hp
      simp only [shutdownDrain] at hp
      simp at hp
    · intro p hp
      simp only [shutdownDrain] at hp
      simp at hp

/-- Witness for C8 amended: extending the fixture session at the later
wall-clock reading 25 keeps `start_ts ≤ last_ts`. -/
theorem C8_amended_witness :
    ({ exSession with last_ts := 25, last_seen := 40 } : Session).start_ts
      ≤ ({ exSession with last_ts := 25, last_seen := 40 } : Session).last_ts := by
  have hs0 : startLeLast exState := by
    intro p hp
    simp only [exState, List.mem_singleton] at hp
    subst hp
    decide
  have hk0 : keysMatch exState := by
    intro p hp
    simp only [exState, List.mem_singleton] at hp
    subst hp
    rfl
  have hclock : ∀ p ∈ exState.sessions, p.2.last_ts ≤ (25 : Int) := by
    intro p hp
    simp only [exState, List.mem_singleton] at hp
    subst hp
    decide
  have h := ((C8_amended exState hs0 hk0).1 "file:///a" "/a" 25 40 hclock).1
  have hl : lookupSession (noteActivity exState "file:///a" "/a" 25 40).sessions "file:///a"
      = some { exSession with last_ts := 25, last_seen := 40 } :=
    @noteActivity_lookup_present exState "file:///a" exSession rfl "/a" 25 40
  exact h _ (lookupSession_mem hl)

end SkopioLs
